import Mathlib

/-!
Shallow embedding of the wearable health-monitor firmware
(data buffer, MAX30102 heart-rate pipeline, MPU6050 step detector,
calorie accumulator, BLE notification layer), together with proofs of
the specification claims about those components.

Machine floats are modelled over `ℚ`; 32-bit unsigned arithmetic on
`millis()` timestamps is modelled by natural-number subtraction reduced
modulo `2^32`, which coincides with the C behaviour whenever the clock
is monotone.
-/

/-- The last `n` elements of a list (all of it when `n ≥ length`). -/
def lastN (n : ℕ) (l : List α) : List α := l.drop (l.length - n)

/-- Pointwise cell update of a store, as the C assignment `buf[j] = x`. -/
def updCell (cells : ℕ → α) (j : ℕ) (x : α) : ℕ → α :=
  fun i => if i = j then x else cells i

/-- The contents of a circular store of `c` cells read oldest-first,
starting at write position `pos` (the cell about to be overwritten is the
oldest). -/
def ringWindow (cells : ℕ → α) (pos c : ℕ) : List α :=
  (List.range c).map (fun i => cells ((pos + i) % c))

theorem lastN_length (n : ℕ) (l : List α) : (lastN n l).length = min n l.length := by
  simp [lastN]
  omega

theorem lastN_all (n : ℕ) (l : List α) (h : l.length ≤ n) : lastN n l = l := by
  simp [lastN, Nat.sub_eq_zero_of_le h]

theorem lastN_lastN (m n : ℕ) (l : List α) (h : m ≤ n) :
    lastN m (lastN n l) = lastN m l := by
  simp only [lastN, List.drop_drop, List.length_drop]
  congr 1
  omega

theorem lastN_append_right (n : ℕ) (l₁ l₂ : List α) (h : n ≤ l₂.length) :
    lastN n (l₁ ++ l₂) = lastN n l₂ := by
  simp only [lastN, List.length_append]
  have : l₁.length + l₂.length - n = l₁.length + (l₂.length - n) := by omega
  rw [this, List.drop_append]

theorem lastN_snoc (n : ℕ) (l : List α) (x : α) (hn : 0 < n) (h : n ≤ l.length) :
    lastN n (l ++ [x]) = (lastN n l).drop 1 ++ [x] := by
  simp only [lastN, List.length_append, List.length_cons, List.length_nil,
    List.drop_drop, List.length_drop]
  rw [List.drop_append_of_le_length (by omega)]
  congr 2
  omega

/-- Writing `x` at the current write position and advancing the position
shifts the oldest-first window left by one and appends `x`. -/
theorem ringWindow_write (cells : ℕ → α) (pos : ℕ) (x : α) (c : ℕ) (hpos : pos < c) :
    ringWindow (updCell cells pos x) ((pos + 1) % c) c
      = (ringWindow cells pos c).drop 1 ++ [x] := by
  have hc : 0 < c := by omega
  have hwlen : (ringWindow cells pos c).length = c := by simp [ringWindow]
  have hdlen : ((ringWindow cells pos c).drop 1).length = c - 1 := by
    simp [hwlen]
  apply List.ext_getElem
  · simp only [ringWindow, List.length_map, List.length_range, List.length_append,
      List.length_drop, List.length_cons, List.length_nil]
    omega
  intro i h1 h2
  have hi : i < c := by simpa [ringWindow] using h1
  rcases Nat.lt_or_ge i (c - 1) with hilt | hige
  · rw [List.getElem_append_left (by rw [hdlen]; exact hilt)]
    simp only [List.getElem_drop, ringWindow, List.getElem_map, List.getElem_range,
      Nat.mod_add_mod]
    have hne : (pos + 1 + i) % c ≠ pos := by
      intro hEq
      by_cases hsmall : pos + 1 + i < c
      · rw [Nat.mod_eq_of_lt hsmall] at hEq
        omega
      · have hsub : (pos + 1 + i) % c = pos + 1 + i - c := by
          rw [Nat.mod_eq_sub_mod (by omega), Nat.mod_eq_of_lt (by omega)]
        rw [hsub] at hEq
        omega
    simp only [updCell, if_neg hne]
    congr 1
    congr 1
    omega
  · have hlast : i = c - 1 := by omega
    rw [List.getElem_append_right (by rw [hdlen]; exact hige)]
    simp only [List.getElem_singleton]
    simp only [ringWindow, List.getElem_map, List.getElem_range, Nat.mod_add_mod]
    have hpc : (pos + 1 + i) % c = pos := by
      have : pos + 1 + i = pos + c := by omega
      rw [this, Nat.add_mod_right, Nat.mod_eq_of_lt hpos]
    rw [hpc]
    simp [updCell]

/-!
## Data buffer (`src/data_buffer.cpp`)
-/

/-- One stored health sample (`HealthSample` in `data_buffer.h`), after the
byte conversions performed by `DataBuffer::addSample`. -/
structure HealthSample where
  hr : ℕ
  spo2 : ℕ
  steps : ℕ
  timestamp : ℕ
deriving DecidableEq, Inhabited

/-- `HR_BUFFER_SIZE` from `board_config.h`. -/
def HR_BUFFER_SIZE : ℕ := 10

/-- `DATA_SEND_INTERVAL_MS` from `board_config.h`. -/
def DATA_SEND_INTERVAL_MS : ℕ := 60000

/-- `MIN_SAMPLES_TO_SEND`, local constant in `DataBuffer::shouldSend`. -/
def MIN_SAMPLES_TO_SEND : ℕ := 10

/-- `2^32`: modulus of `unsigned long` (`millis()`) arithmetic. -/
def U32 : ℕ := 4294967296

/-- Arduino `constrain(x, lo, hi)`. -/
def constrainQ (x lo hi : ℚ) : ℚ := if x < lo then lo else if x > hi then hi else x

/-- C cast of a nonnegative float to an unsigned integer type
(truncation toward zero). -/
def truncToNat (x : ℚ) : ℕ := (Rat.floor x).toNat

/-- State of `DataBuffer` (`data_buffer.h`). -/
structure DataBuffer where
  cells : ℕ → HealthSample
  count : ℕ
  head : ℕ
  lastSendMs : ℕ
  firstSampleMs : ℕ

/-- `DataBuffer::DataBuffer()`: empty buffer, zeroed storage. -/
def DataBuffer.empty : DataBuffer :=
  { cells := fun _ => default, count := 0, head := 0, lastSendMs := 0, firstSampleMs := 0 }

/-- The sample built inside `DataBuffer::addSample`: hr clamped to [0,255],
spo2 clamped to [0,100], both truncated to unsigned bytes. -/
def mkSample (hr spo2 : ℚ) (steps ts : ℕ) : HealthSample :=
  { hr := truncToNat (constrainQ hr 0 255)
  , spo2 := truncToNat (constrainQ spo2 0 100)
  , steps := steps
  , timestamp := ts }

/-- `DataBuffer::addSample` (state transition). `now` is `millis()`,
`ts` the Unix timestamp taken inside the function. -/
def DataBuffer.addSample (b : DataBuffer) (hr spo2 : ℚ) (steps now ts : ℕ) : DataBuffer :=
  let b1 := if b.count = 0 then { b with firstSampleMs := now } else b
  { b1 with
    cells := updCell b1.cells b1.head (mkSample hr spo2 steps ts)
    head := (b1.head + 1) % HR_BUFFER_SIZE
    count := if b1.count < HR_BUFFER_SIZE then b1.count + 1 else b1.count }

/-- `DataBuffer::isFull`. -/
def DataBuffer.isFull (b : DataBuffer) : Bool := decide (b.count ≥ HR_BUFFER_SIZE)

/-- `DataBuffer::shouldSend`, evaluated at `millis() = now`. -/
def DataBuffer.shouldSend (b : DataBuffer) (now : ℕ) : Bool :=
  if b.count < MIN_SAMPLES_TO_SEND then false
  else if b.isFull then true
  else decide ((now - b.firstSampleMs) % U32 ≥ DATA_SEND_INTERVAL_MS)

/-- The sequence of records emitted by `DataBuffer::getCompressedData`,
in emission order: the buffer is walked from `head_` when full,
from index 0 otherwise. -/
def DataBuffer.records (b : DataBuffer) : List HealthSample :=
  (List.range b.count).map
    (fun i => b.cells (((if b.count ≥ HR_BUFFER_SIZE then b.head else 0) + i) % HR_BUFFER_SIZE))

/-- One call's worth of `addSample` arguments. -/
structure SampleIn where
  hr : ℚ
  spo2 : ℚ
  steps : ℕ
  now : ℕ
  ts : ℕ

/-- The record that a given `addSample` call stores. -/
def SampleIn.stored (x : SampleIn) : HealthSample := mkSample x.hr x.spo2 x.steps x.ts

/-- A sequence of `addSample` calls. -/
def insertAll (xs : List SampleIn) (b : DataBuffer) : DataBuffer :=
  xs.foldl (fun b x => b.addSample x.hr x.spo2 x.steps x.now x.ts) b

theorem addSample_core (b : DataBuffer) (hr spo2 : ℚ) (steps now ts : ℕ) :
    (b.addSample hr spo2 steps now ts).head = (b.head + 1) % HR_BUFFER_SIZE ∧
    (b.addSample hr spo2 steps now ts).count
      = (if b.count < HR_BUFFER_SIZE then b.count + 1 else b.count) ∧
    (b.addSample hr spo2 steps now ts).cells
      = updCell b.cells b.head (mkSample hr spo2 steps ts) := by
  unfold DataBuffer.addSample
  by_cases h : b.count = 0 <;> simp [h]

theorem insertAll_inv (xs : List SampleIn) :
    (insertAll xs DataBuffer.empty).head = xs.length % HR_BUFFER_SIZE ∧
    (insertAll xs DataBuffer.empty).count = min xs.length HR_BUFFER_SIZE ∧
    ringWindow (insertAll xs DataBuffer.empty).cells (insertAll xs DataBuffer.empty).head
        HR_BUFFER_SIZE
      = lastN HR_BUFFER_SIZE
          (List.replicate HR_BUFFER_SIZE default ++ xs.map SampleIn.stored) := by
  induction xs using List.reverseRecOn with
  | nil => exact ⟨rfl, rfl, rfl⟩
  | append_singleton xs x ih =>
    obtain ⟨hh, hc, hw⟩ := ih
    have hins : insertAll (xs ++ [x]) DataBuffer.empty
        = (insertAll xs DataBuffer.empty).addSample x.hr x.spo2 x.steps x.now x.ts := by
      simp [insertAll, List.foldl_append]
    obtain ⟨h1, h2, h3⟩ :=
      addSample_core (insertAll xs DataBuffer.empty) x.hr x.spo2 x.steps x.now x.ts
    have hpos : (insertAll xs DataBuffer.empty).head < HR_BUFFER_SIZE := by
      rw [hh]; exact Nat.mod_lt _ (by decide)
    refine ⟨?_, ?_, ?_⟩
    · rw [hins, h1, hh]
      simp [Nat.mod_add_mod, HR_BUFFER_SIZE]
    · rw [hins, h2, hc]
      simp only [List.length_append, List.length_cons, List.length_nil, HR_BUFFER_SIZE]
      split <;> omega
    · rw [hins, h1, h3]
      rw [ringWindow_write _ _ _ _ hpos, hw]
      have hx : (xs ++ [x]).map SampleIn.stored = xs.map SampleIn.stored ++ [x.stored] := by
        simp
      rw [hx, ← List.append_assoc]
      rw [lastN_snoc _ _ _ (by decide)
        (by simp only [List.length_append, List.length_replicate]; omega)]
      rfl

theorem records_eq_lastN (b : DataBuffer) (k : ℕ) (hh : b.head = k % HR_BUFFER_SIZE)
    (hc : b.count = min k HR_BUFFER_SIZE) :
    b.records = lastN b.count (ringWindow b.cells b.head HR_BUFFER_SIZE) := by
  have hwlen : (ringWindow b.cells b.head HR_BUFFER_SIZE).length = HR_BUFFER_SIZE := by
    simp [ringWindow]
  rw [min_def] at hc
  by_cases hfull : b.count ≥ HR_BUFFER_SIZE
  · have hc10 : b.count = HR_BUFFER_SIZE := by
      split at hc <;> simp only [HR_BUFFER_SIZE] at * <;> omega
    rw [lastN_all _ _ (by omega)]
    simp only [DataBuffer.records, ringWindow, if_pos hfull, hc10]
    simp
  · have hkc : k < HR_BUFFER_SIZE ∧ b.count = k := by
      split at hc <;> simp only [HR_BUFFER_SIZE] at * <;> omega
    obtain ⟨hk, hcnt⟩ := hkc
    have hhead : b.head = k := by rw [hh]; exact Nat.mod_eq_of_lt hk
    apply List.ext_getElem
    · simp only [DataBuffer.records, List.length_map, List.length_range, lastN_length, hwlen]
      simp only [HR_BUFFER_SIZE] at *
      omega
    intro i hi1 hi2
    have hik : i < k := by
      simpa [DataBuffer.records, hcnt] using hi1
    simp only [DataBuffer.records, ringWindow, List.getElem_map, List.getElem_range,
      if_neg hfull, lastN, List.getElem_drop, List.length_map, List.length_range]
    have hidx1 : (0 + i) % HR_BUFFER_SIZE = i := by
      simp only [Nat.zero_add]
      exact Nat.mod_eq_of_lt (by simp only [HR_BUFFER_SIZE] at *; omega)
    rw [hidx1]
    congr 1
    rw [hhead, hcnt]
    simp only [HR_BUFFER_SIZE] at *
    omega

theorem records_insertAll (xs : List SampleIn) :
    (insertAll xs DataBuffer.empty).records
      = lastN (min xs.length HR_BUFFER_SIZE) (xs.map SampleIn.stored) := by
  obtain ⟨hh, hc, hw⟩ := insertAll_inv xs
  rw [records_eq_lastN _ xs.length hh hc, hc, hw]
  rw [lastN_lastN _ _ _ (Nat.min_le_right _ _)]
  rw [lastN_append_right _ _ _ (by rw [List.length_map]; exact Nat.min_le_left _ _)]

/-- C1: ring-buffer serialization contract. Inserting `k ≤ capacity` samples
into an initially empty buffer makes `getCompressedData` emit exactly those
`k` records in insertion order; inserting `capacity + m` samples (`m > 0`)
makes it emit exactly the `capacity` most recent records, oldest first,
none skipped, none duplicated. -/
theorem claim_C1_ring_records (xs : List SampleIn) :
    (xs.length ≤ HR_BUFFER_SIZE →
      (insertAll xs DataBuffer.empty).records = xs.map SampleIn.stored)
    ∧ ∀ m, 0 < m → xs.length = HR_BUFFER_SIZE + m →
      (insertAll xs DataBuffer.empty).records = (xs.map SampleIn.stored).drop m := by
  constructor
  · intro hle
    rw [records_insertAll, min_eq_left hle,
      lastN_all _ _ (by simp only [List.length_map]; exact le_rfl)]
  · intro m hm hlen
    rw [records_insertAll, min_eq_right (by omega)]
    simp only [lastN, List.length_map, hlen]
    congr 1
    omega

/-- Witness for C1: three samples stay in insertion order; with twelve
samples the output is the ten most recent, oldest first. -/
theorem claim_C1_ring_records_witness :
    ((insertAll (List.replicate 3 ⟨75, 98, 100, 0, 5⟩) DataBuffer.empty).records
        = (List.replicate 3 (⟨75, 98, 100, 0, 5⟩ : SampleIn)).map SampleIn.stored)
    ∧ ((insertAll (List.replicate 12 ⟨75, 98, 100, 0, 5⟩) DataBuffer.empty).records
        = ((List.replicate 12 (⟨75, 98, 100, 0, 5⟩ : SampleIn)).map SampleIn.stored).drop 2) :=
  ⟨(claim_C1_ring_records _).1 (by decide),
   (claim_C1_ring_records _).2 2 (by decide) (by decide)⟩

/-- C2: `shouldSend` is false whenever `count < minSamplesToSend` (10);
true whenever `count` equals the capacity; and true once the elapsed time
since `firstSampleMs` reaches the send interval, provided
`count ≥ minSamplesToSend`. -/
theorem claim_C2_shouldSend (b : DataBuffer) (now : ℕ) :
    (b.count < MIN_SAMPLES_TO_SEND → b.shouldSend now = false)
    ∧ (b.count = HR_BUFFER_SIZE → b.shouldSend now = true)
    ∧ (MIN_SAMPLES_TO_SEND ≤ b.count → b.firstSampleMs ≤ now →
        now - b.firstSampleMs < U32 → DATA_SEND_INTERVAL_MS ≤ now - b.firstSampleMs →
        b.shouldSend now = true) := by
  refine ⟨?_, ?_, ?_⟩
  · intro h
    simp [DataBuffer.shouldSend, h]
  · intro h
    simp [DataBuffer.shouldSend, DataBuffer.isFull, h, MIN_SAMPLES_TO_SEND, HR_BUFFER_SIZE]
  · intro h1 h2 h3 h4
    by_cases hf : b.isFull = true
    · simp [DataBuffer.shouldSend, hf, Nat.not_lt.mpr h1]
    · simp [DataBuffer.shouldSend, hf, Nat.not_lt.mpr h1]
      rw [Nat.mod_eq_of_lt h3]
      exact h4

/-- Witness for C2 at concrete states: an empty buffer does not send; a
full buffer sends; a buffer with ten samples sends after the interval. -/
theorem claim_C2_shouldSend_witness :
    (DataBuffer.empty.shouldSend 5 = false)
    ∧ ({ DataBuffer.empty with count := 10 }.shouldSend 5 = true)
    ∧ ({ DataBuffer.empty with count := 10, firstSampleMs := 100 }.shouldSend 70000 = true) :=
  ⟨(claim_C2_shouldSend _ 5).1 (by decide),
   (claim_C2_shouldSend _ 5).2.1 (by decide),
   (claim_C2_shouldSend _ 70000).2.2 (by decide) (by decide) (by decide) (by decide)⟩

/-!
## MAX30102 heart-rate pipeline (`src/max30102_manager.cpp`)
-/

/-- `RATE_SIZE` from `max30102_manager.h`. -/
def RATE_SIZE : ℕ := 4

/-- Mutable state of `Max30102Manager` used by the reading loop. -/
structure HrState where
  rates : ℕ → ℕ
  rateSpot : ℕ
  lastBeat : ℕ
  currentHR : ℚ
  currentSPO2 : ℚ
  sensorStatus : ℕ

/-- `Max30102Manager::Max30102Manager()`: zeroed rate ring, HR 0,
SpO2 98, sensor in error state. -/
def hrInit : HrState :=
  { rates := fun _ => 0, rateSpot := 0, lastBeat := 0
  , currentHR := 0, currentSPO2 := 98, sensorStatus := 1 }

/-- One FIFO sample as consumed by one iteration of the `while` loop in
`Max30102Manager::readSensorData`: IR and red intensities, whether the
external `checkForBeat` library call fired on this sample, and `millis()`
at that moment. -/
structure FifoSample where
  ir : ℤ
  red : ℤ
  beat : Bool
  now : ℕ

/-- `60.0 / (delta / 1000.0)` where `delta = millis() - lastBeat`. -/
def bpmOf (s : HrState) (e : FifoSample) : ℚ :=
  60 / ((((e.now - s.lastBeat) % U32 : ℕ) : ℚ) / 1000)

/-- The manager accepts this sample as a valid beat: finger present
(IR not below 30000), beat detected, derived BPM strictly inside (20, 255). -/
def accepts (s : HrState) (e : FifoSample) : Prop :=
  ¬ e.ir < 30000 ∧ e.beat = true ∧ (bpmOf s e < 255 ∧ 20 < bpmOf s e)

instance (s : HrState) (e : FifoSample) : Decidable (accepts s e) := by
  unfold accepts
  infer_instance

/-- The SpO2 update of the accepted branch: `110 - 25 * red/ir`, pushed
into [80, 100] by the two `if`s; left unchanged unless both intensities
are positive. -/
def spo2Update (old : ℚ) (red ir : ℤ) : ℚ :=
  if 0 < red ∧ 0 < ir then
    let v : ℚ := 110 - 25 * ((red : ℚ) / (ir : ℚ))
    let v1 := if v > 100 then 100 else v
    if v1 < 80 then 80 else v1
  else old

/-- One iteration of the FIFO-drain loop body of
`Max30102Manager::readSensorData`. -/
def stepSample (s : HrState) (e : FifoSample) : HrState :=
  if e.ir < 30000 then { s with sensorStatus := 1 }
  else if e.beat then
    if bpmOf s e < 255 ∧ 20 < bpmOf s e then
      let v := truncToNat (bpmOf s e)
      let rates1 := updCell s.rates s.rateSpot v
      let beatAvg := (rates1 0 + rates1 1 + rates1 2 + rates1 3) / RATE_SIZE
      { s with
        lastBeat := e.now
        rates := rates1
        rateSpot := (s.rateSpot + 1) % RATE_SIZE
        currentHR := (beatAvg : ℚ)
        currentSPO2 := spo2Update s.currentSPO2 e.red e.ir
        sensorStatus := 0 }
    else { s with lastBeat := e.now }
  else s

/-- `Max30102Manager::readSensorData`: drain all available FIFO samples. -/
def readLoop (s : HrState) (es : List FifoSample) : HrState := es.foldl stepSample s

/-- Run the loop while collecting the (byte-truncated) BPM values of the
accepted beats, in order. -/
def runAcc : HrState → List FifoSample → HrState × List ℕ
  | s, [] => (s, [])
  | s, e :: es =>
    let r := runAcc (stepSample s e) es
    (r.1, (if accepts s e then [truncToNat (bpmOf s e)] else []) ++ r.2)

/-- `Max30102Manager::getCurrentData`. -/
def getCurrentData (s : HrState) : ℚ × ℚ := (s.currentHR, s.currentSPO2)

/-- `Max30102Manager::hasValidData`. -/
def hasValidData (s : HrState) : Bool := decide (s.sensorStatus = 0)

theorem runAcc_fst (es : List FifoSample) : ∀ s, (runAcc s es).1 = readLoop s es := by
  induction es with
  | nil => intro s; rfl
  | cons e es ih =>
    intro s
    simp only [runAcc, readLoop, List.foldl_cons]
    exact ih (stepSample s e)

/-- The rate ring read oldest-first. -/
def hrWindow (s : HrState) : List ℕ := ringWindow s.rates s.rateSpot RATE_SIZE

theorem hrWindow_length (s : HrState) : (hrWindow s).length = RATE_SIZE := by
  simp [hrWindow, ringWindow]

theorem stepSample_lowIR (s : HrState) (e : FifoSample) (h : e.ir < 30000) :
    stepSample s e = { s with sensorStatus := 1 } := by
  simp [stepSample, h]

theorem stepSample_noBeat (s : HrState) (e : FifoSample) (h1 : ¬ e.ir < 30000)
    (h2 : e.beat = false) : stepSample s e = s := by
  simp [stepSample, h1, h2]

theorem stepSample_outOfRange (s : HrState) (e : FifoSample) (h1 : ¬ e.ir < 30000)
    (h2 : e.beat = true) (h3 : ¬ (bpmOf s e < 255 ∧ 20 < bpmOf s e)) :
    stepSample s e = { s with lastBeat := e.now } := by
  simp [stepSample, h1, h2, h3]

theorem stepSample_reject (s : HrState) (e : FifoSample) (h : ¬ accepts s e) :
    (stepSample s e).currentHR = s.currentHR
    ∧ (stepSample s e).currentSPO2 = s.currentSPO2
    ∧ (stepSample s e).rates = s.rates
    ∧ (stepSample s e).rateSpot = s.rateSpot
    ∧ ((stepSample s e).sensorStatus = 1 ∨ (stepSample s e).sensorStatus = s.sensorStatus) := by
  by_cases h1 : e.ir < 30000
  · rw [stepSample_lowIR s e h1]
    exact ⟨rfl, rfl, rfl, rfl, Or.inl rfl⟩
  · cases h2 : e.beat with
    | false =>
      rw [stepSample_noBeat s e h1 h2]
      exact ⟨rfl, rfl, rfl, rfl, Or.inr rfl⟩
    | true =>
      have h3 : ¬ (bpmOf s e < 255 ∧ 20 < bpmOf s e) := by
        intro hc
        exact h ⟨h1, h2, hc⟩
      rw [stepSample_outOfRange s e h1 h2 h3]
      exact ⟨rfl, rfl, rfl, rfl, Or.inr rfl⟩

theorem lastN_append_lastN (n : ℕ) (l r : List α) (h : n ≤ l.length) :
    lastN n (lastN n l ++ r) = lastN n (l ++ r) := by
  have key : l ++ r = l.take (l.length - n) ++ (lastN n l ++ r) := by
    rw [← List.append_assoc]
    congr 1
    exact (List.take_append_drop _ l).symm
  conv_rhs => rw [key]
  exact (lastN_append_right _ _ _ (by
    simp only [List.length_append, lastN_length]
    omega)).symm

theorem runAcc_cons (s : HrState) (e : FifoSample) (es : List FifoSample) :
    runAcc s (e :: es)
      = ((runAcc (stepSample s e) es).1,
         (if accepts s e then [truncToNat (bpmOf s e)] else [])
           ++ (runAcc (stepSample s e) es).2) := rfl

theorem ringWindow_sum_four (cells : ℕ → ℕ) (pos : ℕ) (hpos : pos < RATE_SIZE) :
    (ringWindow cells pos RATE_SIZE).sum = cells 0 + cells 1 + cells 2 + cells 3 := by
  simp only [RATE_SIZE] at hpos ⊢
  interval_cases pos <;> simp [ringWindow, List.range_succ] <;> omega

theorem stepSample_accept (s : HrState) (e : FifoSample) (h : accepts s e)
    (hspot : s.rateSpot < RATE_SIZE) :
    hrWindow (stepSample s e)
        = (hrWindow s).drop 1 ++ [truncToNat (bpmOf s e)]
    ∧ (stepSample s e).rateSpot = (s.rateSpot + 1) % RATE_SIZE
    ∧ (stepSample s e).currentHR
        = (((hrWindow (stepSample s e)).sum / RATE_SIZE : ℕ) : ℚ) := by
  obtain ⟨h1, h2, h3⟩ := h
  have hrs : (stepSample s e).rates
      = updCell s.rates s.rateSpot (truncToNat (bpmOf s e)) := by
    simp [stepSample, h1, h2, h3]
  have hsp : (stepSample s e).rateSpot = (s.rateSpot + 1) % RATE_SIZE := by
    simp [stepSample, h1, h2, h3]
  have hw : hrWindow (stepSample s e)
      = (hrWindow s).drop 1 ++ [truncToNat (bpmOf s e)] := by
    rw [hrWindow, hrs, hsp]
    exact ringWindow_write _ _ _ _ hspot
  have hhr : (stepSample s e).currentHR
      = (((updCell s.rates s.rateSpot (truncToNat (bpmOf s e)) 0
          + updCell s.rates s.rateSpot (truncToNat (bpmOf s e)) 1
          + updCell s.rates s.rateSpot (truncToNat (bpmOf s e)) 2
          + updCell s.rates s.rateSpot (truncToNat (bpmOf s e)) 3) / RATE_SIZE : ℕ) : ℚ) := by
    simp [stepSample, h1, h2, h3]
  have hsum : (hrWindow (stepSample s e)).sum
      = updCell s.rates s.rateSpot (truncToNat (bpmOf s e)) 0
        + updCell s.rates s.rateSpot (truncToNat (bpmOf s e)) 1
        + updCell s.rates s.rateSpot (truncToNat (bpmOf s e)) 2
        + updCell s.rates s.rateSpot (truncToNat (bpmOf s e)) 3 := by
    rw [hrWindow, hrs, hsp]
    exact ringWindow_sum_four _ _ (Nat.mod_lt _ (by decide))
  exact ⟨hw, hsp, by rw [hhr, hsum]⟩

theorem runAcc_window (es : List FifoSample) : ∀ s : HrState,
    s.rateSpot < RATE_SIZE →
    s.currentHR = (((hrWindow s).sum / RATE_SIZE : ℕ) : ℚ) →
    (runAcc s es).1.rateSpot < RATE_SIZE
    ∧ hrWindow (runAcc s es).1 = lastN RATE_SIZE (hrWindow s ++ (runAcc s es).2)
    ∧ (runAcc s es).1.currentHR
        = (((hrWindow (runAcc s es).1).sum / RATE_SIZE : ℕ) : ℚ) := by
  induction es with
  | nil =>
    intro s h1 h2
    refine ⟨h1, ?_, h2⟩
    simp only [runAcc, List.append_nil]
    exact (lastN_all _ _ (by rw [hrWindow_length])).symm
  | cons e es ih =>
    intro s h1 h2
    by_cases hacc : accepts s e
    · obtain ⟨hw, hsp, hhr⟩ := stepSample_accept s e hacc h1
      have hsp' : (stepSample s e).rateSpot < RATE_SIZE := by
        rw [hsp]
        exact Nat.mod_lt _ (by decide)
      obtain ⟨i1, i2, i3⟩ := ih (stepSample s e) hsp' hhr
      rw [runAcc_cons]
      refine ⟨i1, ?_, i3⟩
      have hsnoc : lastN RATE_SIZE (hrWindow s ++ [truncToNat (bpmOf s e)])
          = (hrWindow s).drop 1 ++ [truncToNat (bpmOf s e)] := by
        rw [lastN_snoc _ _ _ (by decide) (le_of_eq (hrWindow_length s).symm),
          lastN_all _ _ (le_of_eq (hrWindow_length s))]
      rw [i2, hw, if_pos hacc, ← hsnoc,
        lastN_append_lastN _ _ _ (by
          simp only [List.length_append, hrWindow_length, List.length_cons,
            List.length_nil]
          omega),
        List.append_assoc]
    · obtain ⟨j1, j2, j3, j4, j5⟩ := stepSample_reject s e hacc
      have hwstep : hrWindow (stepSample s e) = hrWindow s := by
        rw [hrWindow, j3, j4]
        rfl
      obtain ⟨i1, i2, i3⟩ := ih (stepSample s e)
        (by rw [j4]; exact h1) (by rw [j1, hwstep]; exact h2)
      rw [runAcc_cons]
      refine ⟨i1, ?_, i3⟩
      rw [i2, hwstep, if_neg hacc]
      rfl

/-- C3 counterexample input: one FIFO sample with strong signal and a
detected beat 1000 ms after boot, giving an accepted BPM of exactly 60. -/
def c3Event : FifoSample := { ir := 100000, red := 100000, beat := true, now := 1000 }

/-- C3 fails as stated: after one accepted beat of 60 BPM (so
min(4, N) = 1 and the mean of the accepted values is 60), the exposed
heart rate is 15, because the code divides by all 4 ring slots, the three
unfilled slots counting as 0. -/
theorem claim_C3_counterexample :
    (runAcc hrInit [c3Event]).2 = [60]
    ∧ (runAcc hrInit [c3Event]).1.currentHR = 15
    ∧ (15 : ℚ) ≠ 60 := by
  have hbpm : bpmOf hrInit c3Event = 60 := by
    norm_num [bpmOf, hrInit, c3Event, U32]
  have htr : truncToNat (bpmOf hrInit c3Event) = 60 := by
    rw [hbpm]
    rfl
  have hacc : accepts hrInit c3Event := by
    refine ⟨by norm_num [c3Event], rfl, ?_, ?_⟩ <;> rw [hbpm] <;> norm_num
  have hc1 : ¬ (c3Event.ir < 30000) := by norm_num [c3Event]
  have hc2 : bpmOf hrInit c3Event < 255 ∧ 20 < bpmOf hrInit c3Event := by
    rw [hbpm]
    norm_num
  have hHR : (stepSample hrInit c3Event).currentHR = 15 := by
    unfold stepSample
    rw [if_neg hc1, if_pos (show c3Event.beat = true from rfl), if_pos hc2]
    simp only [htr, updCell]
    norm_num [RATE_SIZE, hrInit]
  have hstep1 : (runAcc hrInit [c3Event]).1 = stepSample hrInit c3Event := rfl
  refine ⟨?_, ?_, by norm_num⟩
  · rw [runAcc_cons]
    simp only [if_pos hacc, htr, runAcc, List.append_nil]
  · rw [hstep1]
    exact hHR

/-- C3 (amended): after any drive trace, the exposed heart rate equals the
integer mean over all 4 ring slots of the accepted (byte-truncated) BPM
values — i.e. `(sum of the last min(4, N) accepted values) / 4` with
unfilled slots counting as 0 — and is therefore a function of the accepted
values only, never reflecting a rejected BPM. -/
theorem claim_C3_hr_mean (es : List FifoSample) :
    (runAcc hrInit es).1.currentHR
      = (((lastN RATE_SIZE (List.replicate RATE_SIZE 0 ++ (runAcc hrInit es).2)).sum
          / RATE_SIZE : ℕ) : ℚ) := by
  obtain ⟨h1, h2, h3⟩ := runAcc_window es hrInit (by decide) (by decide)
  rw [h3, h2]
  rw [show hrWindow hrInit = List.replicate RATE_SIZE 0 from by decide]

/-- A tick with IR below the presence threshold. -/
def lowIr : FifoSample := { ir := 1000, red := 500, beat := false, now := 0 }

/-- A detected beat whose derived BPM (0, from a zero interval) is out of
range. -/
def bpmZero : FifoSample := { ir := 40000, red := 500, beat := true, now := 0 }

theorem readLoop_cons (s : HrState) (e : FifoSample) (es : List FifoSample) :
    readLoop s (e :: es) = readLoop (stepSample s e) es := rfl

theorem readLoop_lowIR (es : List FifoSample) : ∀ s, (∀ x ∈ es, x.ir < 30000) →
    readLoop s es = (if es.isEmpty then s else { s with sensorStatus := 1 }) := by
  induction es with
  | nil => intro s _; rfl
  | cons e es ih =>
    intro s h
    have he : e.ir < 30000 := h e (List.mem_cons_self _ _)
    rw [readLoop_cons, stepSample_lowIR s e he,
      ih _ (fun x hx => h x (List.mem_cons_of_mem _ hx))]
    cases es <;> rfl

/-- C8: a rejected optical sample is discarded without touching the
exposed estimates. A low-IR tick leaves `currentHR`, `currentSPO2`, the
4-slot BPM ring and its write position unchanged and makes validity
false; a detected beat whose derived BPM is out of (20, 255) changes only
`lastBeat`; and across any run of consecutive low-IR ticks the exposed
heart rate is unchanged and validity is false at the end. The loop body
is a total function, so no error is surfaced. -/
theorem claim_C8_rejected_ticks (s : HrState) (e : FifoSample) (es : List FifoSample) :
    (e.ir < 30000 →
      (stepSample s e).currentHR = s.currentHR
      ∧ (stepSample s e).currentSPO2 = s.currentSPO2
      ∧ (stepSample s e).rates = s.rates
      ∧ (stepSample s e).rateSpot = s.rateSpot
      ∧ hasValidData (stepSample s e) = false)
    ∧ (¬ e.ir < 30000 → e.beat = true → ¬ (bpmOf s e < 255 ∧ 20 < bpmOf s e) →
      stepSample s e = { s with lastBeat := e.now })
    ∧ ((∀ x ∈ es, x.ir < 30000) →
      (readLoop s es).currentHR = s.currentHR
      ∧ (es ≠ [] → hasValidData (readLoop s es) = false)) := by
  refine ⟨?_, stepSample_outOfRange s e, ?_⟩
  · intro h
    rw [stepSample_lowIR s e h]
    exact ⟨rfl, rfl, rfl, rfl, rfl⟩
  · intro hall
    rw [readLoop_lowIR es s hall]
    cases es with
    | nil => exact ⟨rfl, fun hne => absurd rfl hne⟩
    | cons e' es' => exact ⟨rfl, fun _ => rfl⟩

/-- Witness for C8: a low-IR tick, a zero-interval beat, and five
consecutive low-IR ticks, all from the initial state. -/
theorem claim_C8_rejected_ticks_witness :
    ((stepSample hrInit lowIr).currentHR = hrInit.currentHR
      ∧ (stepSample hrInit lowIr).currentSPO2 = hrInit.currentSPO2
      ∧ (stepSample hrInit lowIr).rates = hrInit.rates
      ∧ (stepSample hrInit lowIr).rateSpot = hrInit.rateSpot
      ∧ hasValidData (stepSample hrInit lowIr) = false)
    ∧ (stepSample hrInit bpmZero = { hrInit with lastBeat := bpmZero.now })
    ∧ ((readLoop hrInit (List.replicate 5 lowIr)).currentHR = hrInit.currentHR
      ∧ (List.replicate 5 lowIr ≠ [] →
          hasValidData (readLoop hrInit (List.replicate 5 lowIr)) = false)) :=
  ⟨(claim_C8_rejected_ticks hrInit lowIr []).1 (by decide),
   (claim_C8_rejected_ticks hrInit bpmZero []).2.1 (by decide) rfl
     (by norm_num [bpmOf, hrInit, bpmZero, U32]),
   (claim_C8_rejected_ticks hrInit lowIr (List.replicate 5 lowIr)).2.2 (by
     intro x hx
     rw [List.eq_of_mem_replicate hx]
     decide)⟩

theorem noAccept_run (es : List FifoSample) : ∀ s, (runAcc s es).2 = [] →
    (readLoop s es).currentHR = s.currentHR
    ∧ (readLoop s es).currentSPO2 = s.currentSPO2
    ∧ ((readLoop s es).sensorStatus = 1 ∨ (readLoop s es).sensorStatus = s.sensorStatus) := by
  induction es with
  | nil => intro s _; exact ⟨rfl, rfl, Or.inr rfl⟩
  | cons e es ih =>
    intro s h
    rw [runAcc_cons] at h
    have hacc : ¬ accepts s e := by
      intro ha
      rw [if_pos ha] at h
      simp at h
    rw [if_neg hacc, List.nil_append] at h
    obtain ⟨j1, j2, _, _, j5⟩ := stepSample_reject s e hacc
    obtain ⟨i1, i2, i3⟩ := ih (stepSample s e) h
    rw [readLoop_cons]
    refine ⟨by rw [i1, j1], by rw [i2, j2], ?_⟩
    rcases i3 with h1 | h1
    · exact Or.inl h1
    · rcases j5 with h2 | h2
      · exact Or.inl (h1.trans h2)
      · exact Or.inr (h1.trans h2)

/-- C10: from construction until the first accepted beat, the public
interface reports the constructor defaults: `getCurrentData` is exactly
(hr = 0, spo2 = 98) and `hasValidData` is false, across any number of
ticks in which no beat is accepted. -/
theorem claim_C10_initial_defaults (es : List FifoSample)
    (h : (runAcc hrInit es).2 = []) :
    getCurrentData (readLoop hrInit es) = (0, 98)
    ∧ hasValidData (readLoop hrInit es) = false := by
  obtain ⟨h1, h2, h3⟩ := noAccept_run es hrInit h
  constructor
  · unfold getCurrentData
    rw [h1, h2]
    rfl
  · unfold hasValidData
    rcases h3 with h4 | h4 <;> rw [h4] <;> rfl

/-- Witness for C10: five low-IR ticks accept no beat, so the defaults
persist. -/
theorem claim_C10_initial_defaults_witness :
    getCurrentData (readLoop hrInit (List.replicate 5 lowIr)) = (0, 98)
    ∧ hasValidData (readLoop hrInit (List.replicate 5 lowIr)) = false :=
  claim_C10_initial_defaults _ (by decide)

/-!
## MPU6050 step detector (`src/mpu6050_manager.cpp`)
-/

/-- `alphaHP_` set by the `MPU6050Manager` constructor. -/
def alphaHP : ℚ := 0.97

/-- `minStepIntervalMs_` set by the constructor. -/
def minStepIntervalMs : ℕ := 600

/-- `stepThreshold_` set by the constructor. -/
def stepThreshold : ℚ := 0.55

/-- Step-detection state of `MPU6050Manager::update`: the high-pass filter
state (`prevRawMag_`, `hpVal_`), the peak tracker (the function-static
`prevHp` and `rising`), and the step counter with its refractory
timestamp. -/
structure MpuState where
  prevRawMag : ℚ
  hpVal : ℚ
  prevHp : ℚ
  rising : Bool
  stepCount : ℕ
  lastStepMs : ℕ

/-- Constructor values (statics start at 0 / false). -/
def mpuInit : MpuState :=
  { prevRawMag := 0, hpVal := 0, prevHp := 0, rising := false
  , stepCount := 0, lastStepMs := 0 }

/-- One sampling tick driving `MPU6050Manager::update`: the acceleration
magnitude in g (the raw-count sqrt conversion stays outside the
embedding) and `millis()`. -/
structure MpuTick where
  mag : ℚ
  now : ℕ

/-- One `MPU6050Manager::update` call from the high-pass filter on:
`hp = alphaHP * (hpVal + mag - prevRawMag)`, rising-edge tracking, peak
detection with threshold and refractory check on `millis() - lastStepMs_`. -/
def mpuStep (s : MpuState) (mag : ℚ) (now : ℕ) : MpuState :=
  let hp := alphaHP * (s.hpVal + mag - s.prevRawMag)
  let rising1 := if hp > s.prevHp ∧ hp > 0 then true else s.rising
  if rising1 ∧ hp < s.prevHp then
    if s.prevHp > stepThreshold ∧ (now - s.lastStepMs) % U32 > minStepIntervalMs then
      { prevRawMag := mag, hpVal := hp, prevHp := hp, rising := false
      , stepCount := s.stepCount + 1, lastStepMs := now }
    else
      { prevRawMag := mag, hpVal := hp, prevHp := hp, rising := false
      , stepCount := s.stepCount, lastStepMs := s.lastStepMs }
  else
    { prevRawMag := mag, hpVal := hp, prevHp := hp, rising := rising1
    , stepCount := s.stepCount, lastStepMs := s.lastStepMs }

/-- A sequence of `update` calls. -/
def mpuRun (s : MpuState) (tr : List MpuTick) : MpuState :=
  tr.foldl (fun s t => mpuStep s t.mag t.now) s

/-- The step counter increments at position `j` of the trace. -/
def stepAt (s : MpuState) (tr : List MpuTick) (j : ℕ) : Prop :=
  (mpuRun s (tr.take (j + 1))).stepCount = (mpuRun s (tr.take j)).stepCount + 1

theorem mpuStep_count (s : MpuState) (mag : ℚ) (now : ℕ) :
    ((mpuStep s mag now).stepCount = s.stepCount
      ∧ (mpuStep s mag now).lastStepMs = s.lastStepMs)
    ∨ ((mpuStep s mag now).stepCount = s.stepCount + 1
      ∧ (mpuStep s mag now).lastStepMs = now
      ∧ (now - s.lastStepMs) % U32 > minStepIntervalMs) := by
  unfold mpuStep
  dsimp only
  split_ifs <;>
    first
      | exact Or.inl ⟨rfl, rfl⟩
      | (rename_i hcond
         exact Or.inr ⟨rfl, rfl, hcond.2⟩)

theorem mpuRun_cons (s : MpuState) (t : MpuTick) (tr : List MpuTick) :
    mpuRun s (t :: tr) = mpuRun (mpuStep s t.mag t.now) tr := rfl

theorem mpuRun_take_succ (tr : List MpuTick) (s : MpuState) (k : ℕ) (hk : k < tr.length) :
    mpuRun s (tr.take (k + 1))
      = mpuStep (mpuRun s (tr.take k)) (tr.get ⟨k, hk⟩).mag (tr.get ⟨k, hk⟩).now := by
  have h : tr.take (k + 1) = tr.take k ++ [tr.get ⟨k, hk⟩] := by
    rw [List.take_succ, List.getElem?_eq_getElem hk]
    rfl
  rw [h]
  simp only [mpuRun, List.foldl_append, List.foldl_cons, List.foldl_nil]

theorem mpuRun_take_split (tr : List MpuTick) (s : MpuState) (m k : ℕ) :
    mpuRun s (tr.take (m + k)) = mpuRun (mpuRun s (tr.take m)) ((tr.drop m).take k) := by
  rw [List.take_add]
  simp [mpuRun, List.foldl_append]

theorem mpuRun_refractory (tr : List MpuTick) : ∀ s : MpuState,
    (∀ t ∈ tr, s.lastStepMs ≤ t.now) →
    List.Pairwise (fun a b : MpuTick => a.now ≤ b.now) tr →
    ∀ j, (hj : j < tr.length) → stepAt s tr j →
      s.lastStepMs + minStepIntervalMs < (tr.get ⟨j, hj⟩).now := by
  induction tr with
  | nil =>
    intro s _ _ j hj
    exact absurd hj (by simp)
  | cons t tr ih =>
    intro s h0 hmono j hj hstep
    cases j with
    | zero =>
      have h1 : mpuRun s ((t :: tr).take 1) = mpuStep s t.mag t.now := rfl
      have h0' : mpuRun s ((t :: tr).take 0) = s := rfl
      rw [stepAt, h1, h0'] at hstep
      rcases mpuStep_count s t.mag t.now with ⟨hc, _⟩ | ⟨_, _, hgt⟩
      · omega
      · have hle : (t.now - s.lastStepMs) % U32 ≤ t.now - s.lastStepMs :=
          Nat.mod_le _ _
        have hts : s.lastStepMs ≤ t.now := h0 t (List.mem_cons_self _ _)
        show s.lastStepMs + minStepIntervalMs < t.now
        omega
    | succ j =>
      have hstep' : stepAt (mpuStep s t.mag t.now) tr j := hstep
      have hmono' : List.Pairwise (fun a b : MpuTick => a.now ≤ b.now) tr :=
        hmono.of_cons
      have hhead : ∀ x ∈ tr, t.now ≤ x.now := fun x hx =>
        (List.pairwise_cons.mp hmono).1 x hx
      have h0' : ∀ x ∈ tr, (mpuStep s t.mag t.now).lastStepMs ≤ x.now := by
        intro x hx
        rcases mpuStep_count s t.mag t.now with ⟨_, hl⟩ | ⟨_, hl, _⟩
        · rw [hl]
          exact h0 x (List.mem_cons_of_mem _ hx)
        · rw [hl]
          exact hhead x hx
      have hj' : j < tr.length := by
        simpa using hj
      have hrec := ih (mpuStep s t.mag t.now) h0' hmono' j hj' hstep'
      have hlast : s.lastStepMs ≤ (mpuStep s t.mag t.now).lastStepMs := by
        rcases mpuStep_count s t.mag t.now with ⟨_, hl⟩ | ⟨_, hl, _⟩
        · rw [hl]
        · rw [hl]
          exact h0 t (List.mem_cons_self _ _)
      have hget : ((t :: tr).get ⟨j + 1, hj⟩) = tr.get ⟨j, hj'⟩ := rfl
      rw [hget]
      omega

/-- C7: refractory guarantee of the step detector. For every input signal
trace with monotone timestamps, whenever the step counter increments at
trace positions `i` and later `j`, the two step timestamps are more than
`minStepIntervalMs` (600 ms) apart. -/
theorem claim_C7_step_refractory (tr : List MpuTick)
    (hmono : List.Pairwise (fun a b : MpuTick => a.now ≤ b.now) tr)
    (i j : ℕ) (hij : i < j) (hj : j < tr.length)
    (hi : stepAt mpuInit tr i) (hjs : stepAt mpuInit tr j) :
    (tr.get ⟨i, lt_trans hij hj⟩).now + minStepIntervalMs < (tr.get ⟨j, hj⟩).now := by
  have hilt : i < tr.length := lt_trans hij hj
  have hstep_i := mpuRun_take_succ tr mpuInit i hilt
  have hlast1 : (mpuRun mpuInit (tr.take (i + 1))).lastStepMs
      = (tr.get ⟨i, hilt⟩).now := by
    rw [hstep_i]
    rcases mpuStep_count (mpuRun mpuInit (tr.take i)) (tr.get ⟨i, hilt⟩).mag
        (tr.get ⟨i, hilt⟩).now with ⟨hc, _⟩ | ⟨_, hl, _⟩
    · exfalso
      rw [stepAt, hstep_i, hc] at hi
      omega
    · exact hl
  have hlen_tl : (tr.drop (i + 1)).length = tr.length - (i + 1) := by simp
  have hjlen : j - (i + 1) < (tr.drop (i + 1)).length := by omega
  have htrans : stepAt (mpuRun mpuInit (tr.take (i + 1))) (tr.drop (i + 1)) (j - (i + 1)) := by
    unfold stepAt
    have e1 := mpuRun_take_split tr mpuInit (i + 1) (j - (i + 1) + 1)
    have e2 := mpuRun_take_split tr mpuInit (i + 1) (j - (i + 1))
    rw [show i + 1 + (j - (i + 1) + 1) = j + 1 by omega] at e1
    rw [show i + 1 + (j - (i + 1)) = j by omega] at e2
    rw [stepAt, e1, e2] at hjs
    exact hjs
  have hmono' : List.Pairwise (fun a b : MpuTick => a.now ≤ b.now) (tr.drop (i + 1)) :=
    hmono.sublist (List.drop_sublist _ _)
  have h0 : ∀ t ∈ tr.drop (i + 1), (mpuRun mpuInit (tr.take (i + 1))).lastStepMs ≤ t.now := by
    intro t ht
    rw [hlast1]
    obtain ⟨k, hk, hkt⟩ := List.mem_iff_getElem.mp ht
    have hklen : i + 1 + k < tr.length := by omega
    have hdk : (tr.drop (i + 1)).get ⟨k, hk⟩ = tr.get ⟨i + 1 + k, hklen⟩ := by
      simp [List.getElem_drop]
    have hrel := List.pairwise_iff_get.mp hmono ⟨i, hilt⟩ ⟨i + 1 + k, hklen⟩ (by
      simp only [Fin.mk_lt_mk]
      omega)
    rw [← hkt]
    calc (tr.get ⟨i, hilt⟩).now ≤ (tr.get ⟨i + 1 + k, hklen⟩).now := hrel
      _ = ((tr.drop (i + 1)).get ⟨k, hk⟩).now := by rw [hdk]
      _ = ((tr.drop (i + 1)).get ⟨k, hk⟩).now := rfl
  have hmain := mpuRun_refractory (tr.drop (i + 1)) (mpuRun mpuInit (tr.take (i + 1)))
    h0 hmono' (j - (i + 1)) hjlen htrans
  have hgj : ((tr.drop (i + 1)).get ⟨j - (i + 1), hjlen⟩).now = (tr.get ⟨j, hj⟩).now := by
    have hidx : i + 1 + (j - (i + 1)) = j := by omega
    simp only [List.get_eq_getElem, List.getElem_drop, hidx]
  rw [hlast1, hgj] at hmain
  exact hmain

/-- A concrete trace producing two counted steps: rising then falling
peaks above the threshold at 1100 ms and 1800 ms. -/
def c7Trace : List MpuTick := [⟨1, 1000⟩, ⟨0.5, 1100⟩, ⟨1.5, 1200⟩, ⟨0.5, 1800⟩]

/-- Witness for C7: on `c7Trace` the counter increments at positions 1
and 3, and the two step timestamps are 700 ms > 600 ms apart. -/
theorem claim_C7_step_refractory_witness :
    (c7Trace.get ⟨1, by norm_num [c7Trace]⟩).now + minStepIntervalMs
      < (c7Trace.get ⟨3, by norm_num [c7Trace]⟩).now :=
  claim_C7_step_refractory c7Trace
    (by norm_num [c7Trace, List.pairwise_cons])
    1 3 (by norm_num) (by norm_num [c7Trace])
    (by norm_num [stepAt, c7Trace, mpuRun, mpuStep, mpuInit, alphaHP, stepThreshold,
      minStepIntervalMs, U32])
    (by norm_num [stepAt, c7Trace, mpuRun, mpuStep, mpuInit, alphaHP, stepThreshold,
      minStepIntervalMs, U32])

/-!
## Calorie accumulator (`src/calorie_manager.cpp`)
-/

/-- `UserProfile` (`max30102_manager.h`); `bmr` is not read by
`CalorieManager` and is omitted. -/
structure UserProfile where
  gender : ℤ
  weight : ℚ
  height : ℚ
  age : ℤ

/-- `CalorieManager::estimateStepCalories`:
`steps * (0.04 * (weightKg / 70))`. -/
def estimateStepCalories (steps : ℕ) (weightKg : ℚ) : ℚ :=
  (steps : ℚ) * (0.04 * (weightKg / 70))

/-- `CalorieManager::estimateHRCalories` (modified Karvonen formula with
the final clamp to 0). -/
def estimateHRCalories (avgHR durationMin weightKg : ℚ) (age gender : ℤ) : ℚ :=
  let C : ℚ := if gender = 1 then 55.0969 else 20.4022
  let cal := (((age : ℚ) * 0.2017) - (weightKg * 0.09036) + (avgHR * 0.6309) - C)
    * durationMin / 4.184
  if cal < 0 then 0 else cal

/-- Mutable state of `CalorieManager`. -/
structure CalState where
  lastStepCount : ℕ
  totalCalories : ℚ
  lastUpdateMs : ℕ

/-- `CalorieManager::CalorieManager()`. -/
def calInit : CalState := { lastStepCount := 0, totalCalories := 0, lastUpdateMs := 0 }

/-- `CalorieManager::update`: charge the step delta, then (guarded by the
60 s gate on `millis() - lastUpdateMs_` and the HR validity window) the
heart-rate term, then record `lastUpdateMs_ = now`. -/
def CalState.update (s : CalState) (totalSteps : ℕ) (currentHR : ℚ)
    (p : UserProfile) (now : ℕ) : CalState :=
  let s1 := if totalSteps > s.lastStepCount then
      { s with
        totalCalories := s.totalCalories
          + estimateStepCalories (totalSteps - s.lastStepCount) p.weight
        lastStepCount := totalSteps }
    else s
  let s2 := if 0 < s.lastUpdateMs ∧ (now - s.lastUpdateMs) % U32 ≥ 60000 then
      (let durationMin : ℚ := (((now - s.lastUpdateMs) % U32 : ℕ) : ℚ) / 60000
       if currentHR > 50 ∧ currentHR < 200 then
        { s1 with totalCalories := s1.totalCalories
            + estimateHRCalories currentHR durationMin p.weight p.age p.gender }
       else s1)
    else s1
  { s2 with lastUpdateMs := now }

/-- The heart-rate term that one `update` call adds (0 when the 60 s gate
is closed or the heart rate is outside (50, 200)). -/
def hrTerm (s : CalState) (hr : ℚ) (p : UserProfile) (now : ℕ) : ℚ :=
  if 0 < s.lastUpdateMs ∧ (now - s.lastUpdateMs) % U32 ≥ 60000 then
    if hr > 50 ∧ hr < 200 then
      estimateHRCalories hr ((((now - s.lastUpdateMs) % U32 : ℕ) : ℚ) / 60000)
        p.weight p.age p.gender
    else 0
  else 0

/-- The step term that one `update` call adds. -/
def stepTerm (s : CalState) (totalSteps : ℕ) (p : UserProfile) : ℚ :=
  if totalSteps > s.lastStepCount then
    estimateStepCalories (totalSteps - s.lastStepCount) p.weight
  else 0

theorem update_decomposed (s : CalState) (totalSteps : ℕ) (hr : ℚ)
    (p : UserProfile) (now : ℕ) :
    (s.update totalSteps hr p now).totalCalories
      = s.totalCalories + stepTerm s totalSteps p + hrTerm s hr p now
    ∧ (s.update totalSteps hr p now).lastStepCount
      = (if totalSteps > s.lastStepCount then totalSteps else s.lastStepCount)
    ∧ (s.update totalSteps hr p now).lastUpdateMs = now := by
  unfold CalState.update hrTerm stepTerm
  dsimp only
  split_ifs <;> refine ⟨?_, rfl, rfl⟩ <;> (try dsimp only) <;> ring

/-- One `CalorieManager::update` call's arguments. -/
structure CalIn where
  totalSteps : ℕ
  hr : ℚ
  p : UserProfile
  now : ℕ

/-- A sequence of `update` calls. -/
def calRun (s : CalState) (xs : List CalIn) : CalState :=
  xs.foldl (fun s x => s.update x.totalSteps x.hr x.p x.now) s

theorem calRun_take_succ (xs : List CalIn) (s : CalState) (k : ℕ) (hk : k < xs.length) :
    calRun s (xs.take (k + 1))
      = (calRun s (xs.take k)).update (xs.get ⟨k, hk⟩).totalSteps (xs.get ⟨k, hk⟩).hr
          (xs.get ⟨k, hk⟩).p (xs.get ⟨k, hk⟩).now := by
  have h : xs.take (k + 1) = xs.take k ++ [xs.get ⟨k, hk⟩] := by
    rw [List.take_succ, List.getElem?_eq_getElem hk]
    rfl
  rw [h]
  simp only [calRun, List.foldl_append, List.foldl_cons, List.foldl_nil]

/-- The HR-based charge fires on this call (60 s gate open and heart rate
strictly inside (50, 200)). -/
def hrFires (s : CalState) (x : CalIn) : Prop :=
  0 < s.lastUpdateMs ∧ (x.now - s.lastUpdateMs) % U32 ≥ 60000
    ∧ x.hr > 50 ∧ x.hr < 200

instance (s : CalState) (x : CalIn) : Decidable (hrFires s x) := by
  unfold hrFires
  infer_instance

/-- The HR-based charge fires at position `j` of the call sequence. -/
def hrChargeAt (s : CalState) (xs : List CalIn) (j : ℕ) (hj : j < xs.length) : Prop :=
  hrFires (calRun s (xs.take j)) (xs.get ⟨j, hj⟩)

instance (s : CalState) (xs : List CalIn) (j : ℕ) (hj : j < xs.length) :
    Decidable (hrChargeAt s xs j hj) := by
  unfold hrChargeAt
  infer_instance

/-- C4: an HR-based calorie charge is applied only when at least 60 real
seconds have elapsed since the last HR-based charge (two charges in any
monotone-time call sequence are ≥ 60000 ms apart), and only when
`50 < hr < 200`; when the heart rate is out of range, or less than 60 s
have elapsed since the previous call, the interval is skipped: only the
step term is added and no error occurs (`update` is total). -/
theorem claim_C4_hr_gate (xs : List CalIn)
    (hmono : List.Pairwise (fun a b : CalIn => a.now ≤ b.now) xs)
    (i j : ℕ) (hij : i < j) (hj : j < xs.length)
    (hi : hrChargeAt calInit xs i (lt_trans hij hj))
    (hjc : hrChargeAt calInit xs j hj) :
    ((xs.get ⟨i, lt_trans hij hj⟩).now + 60000 ≤ (xs.get ⟨j, hj⟩).now)
    ∧ (∀ (s : CalState) (x : CalIn), ¬ (x.hr > 50 ∧ x.hr < 200) →
        (s.update x.totalSteps x.hr x.p x.now).totalCalories
          = s.totalCalories + stepTerm s x.totalSteps x.p)
    ∧ (∀ (s : CalState) (x : CalIn), (x.now - s.lastUpdateMs) % U32 < 60000 →
        (s.update x.totalSteps x.hr x.p x.now).totalCalories
          = s.totalCalories + stepTerm s x.totalSteps x.p) := by
  refine ⟨?_, ?_, ?_⟩
  · have hjm1 : j - 1 < xs.length := by omega
    have hprev : (calRun calInit (xs.take j)).lastUpdateMs
        = (xs.get ⟨j - 1, hjm1⟩).now := by
      have hts := calRun_take_succ xs calInit (j - 1) hjm1
      rw [show j - 1 + 1 = j by omega] at hts
      rw [hts]
      exact (update_decomposed _ _ _ _ _).2.2
    obtain ⟨hpos, hge, _, _⟩ := hjc
    rw [hprev] at hge
    have hmod : ((xs.get ⟨j, hj⟩).now - (xs.get ⟨j - 1, hjm1⟩).now) % U32
        ≤ (xs.get ⟨j, hj⟩).now - (xs.get ⟨j - 1, hjm1⟩).now := Nat.mod_le _ _
    have hmono' : ∀ (a b : ℕ) (ha : a < xs.length) (hb : b < xs.length), a ≤ b →
        (xs.get ⟨a, ha⟩).now ≤ (xs.get ⟨b, hb⟩).now := by
      intro a b ha hb hab
      rcases Nat.lt_or_eq_of_le hab with h | h
      · exact List.pairwise_iff_get.mp hmono ⟨a, ha⟩ ⟨b, hb⟩ h
      · subst h
        exact le_refl _
    have hrel := hmono' i (j - 1) (lt_trans hij hj) hjm1 (by omega)
    omega
  · intro s x hx
    have hz : hrTerm s x.hr x.p x.now = 0 := by
      unfold hrTerm
      by_cases h1 : 0 < s.lastUpdateMs ∧ (x.now - s.lastUpdateMs) % U32 ≥ 60000
      · rw [if_pos h1, if_neg hx]
      · rw [if_neg h1]
    rw [(update_decomposed s x.totalSteps x.hr x.p x.now).1, hz, add_zero]
  · intro s x hx
    have hno : ¬ (0 < s.lastUpdateMs ∧ (x.now - s.lastUpdateMs) % U32 ≥ 60000) := by
      intro hcon
      omega
    have hz : hrTerm s x.hr x.p x.now = 0 := by
      unfold hrTerm
      rw [if_neg hno]
    rw [(update_decomposed s x.totalSteps x.hr x.p x.now).1, hz, add_zero]

/-- Profile used by the concrete witnesses. -/
def wProfile : UserProfile := { gender := 1, weight := 70, height := 1.77, age := 21 }

/-- A call sequence whose HR charges fire at positions 1 and 2. -/
def c4Trace : List CalIn :=
  [⟨0, 100, wProfile, 1000⟩, ⟨0, 100, wProfile, 61001⟩, ⟨0, 100, wProfile, 121002⟩]

/-- Witness for C4: on `c4Trace` the HR charge fires at calls 1 and 2,
whose timestamps are 60001 ms apart. -/
theorem claim_C4_hr_gate_witness :
    (c4Trace.get ⟨1, by decide⟩).now + 60000 ≤ (c4Trace.get ⟨2, by decide⟩).now :=
  (claim_C4_hr_gate c4Trace (by decide) 1 2 (by decide) (by decide)
    (by decide) (by decide)).1

/-- C5: on an update where `totalSteps` increased, exactly
`newSteps * 0.04 * (weightKg / 70)` kcal is added as the step term and
`lastStepCount` is advanced, so an already-charged step is never charged
again; when `totalSteps` has not increased nothing is added beyond the
(independent) HR term; in the scenario weight = 70 kg, steps 1000 → 1100,
exactly 4.0 kcal is added. -/
theorem claim_C5_step_delta (s : CalState) (totalSteps : ℕ) (hr : ℚ)
    (p : UserProfile) (now : ℕ) :
    (totalSteps > s.lastStepCount →
      (s.update totalSteps hr p now).totalCalories
        = s.totalCalories
          + ((totalSteps - s.lastStepCount : ℕ) : ℚ) * (0.04 * (p.weight / 70))
          + hrTerm s hr p now
      ∧ (s.update totalSteps hr p now).lastStepCount = totalSteps)
    ∧ (totalSteps ≤ s.lastStepCount →
      (s.update totalSteps hr p now).totalCalories
        = s.totalCalories + hrTerm s hr p now)
    ∧ (s.lastStepCount = 1000 → totalSteps = 1100 → s.lastUpdateMs = 0 → p.weight = 70 →
      (s.update totalSteps hr p now).totalCalories = s.totalCalories + 4) := by
  obtain ⟨h1, h2, _⟩ := update_decomposed s totalSteps hr p now
  refine ⟨?_, ?_, ?_⟩
  · intro hgt
    constructor
    · rw [h1, stepTerm, if_pos hgt, estimateStepCalories]
    · rw [h2, if_pos hgt]
  · intro hle
    rw [h1, stepTerm, if_neg (by omega), add_zero]
  · intro e1 e2 e3 e4
    have hstep : stepTerm s totalSteps p = 4 := by
      rw [stepTerm, if_pos (by omega), e1, e2, e4, estimateStepCalories]
      norm_num
    have hhr : hrTerm s hr p now = 0 := by
      rw [hrTerm, if_neg (by
        rw [e3]
        intro hcon
        exact absurd hcon.1 (lt_irrefl 0))]
    rw [h1, hstep, hhr, add_zero]

/-- Witness for C5: the spec scenario (1000 → 1100 steps at 70 kg adds
exactly 4 kcal), plus a no-new-steps call adding nothing. -/
theorem claim_C5_step_delta_witness :
    ((CalState.update ⟨1000, 0, 0⟩ 1100 0 wProfile 5000).totalCalories = (0 : ℚ) + 4)
    ∧ ((CalState.update ⟨1000, 0, 0⟩ 1000 0 wProfile 5000).totalCalories
        = (0 : ℚ) + hrTerm ⟨1000, 0, 0⟩ 0 wProfile 5000) :=
  ⟨(claim_C5_step_delta ⟨1000, 0, 0⟩ 1100 0 wProfile 5000).2.2 rfl rfl rfl rfl,
   (claim_C5_step_delta ⟨1000, 0, 0⟩ 1000 0 wProfile 5000).2.1 (by decide)⟩

theorem estimateHRCalories_nonneg (a d w : ℚ) (age gender : ℤ) :
    0 ≤ estimateHRCalories a d w age gender := by
  unfold estimateHRCalories
  dsimp only
  split_ifs with h1 h2 h3
  · exact le_refl 0
  · exact le_of_not_lt h2
  · exact le_refl 0
  · exact le_of_not_lt h3

/-- C6: for any interleaving of calls, `totalCalories` never decreases
across an `update` (given the code-guaranteed nonnegative weight) and
stays nonnegative, each accumulated term — the clamped HR term and the
step term — being individually ≥ 0; and the step detector's `stepCount`
never decreases across any run of `MPU6050Manager::update` calls. -/
theorem claim_C6_monotone (s : CalState) (totalSteps : ℕ) (hr : ℚ) (p : UserProfile)
    (now : ℕ) (hw : 0 ≤ p.weight) (st : MpuState) (tr : List MpuTick) :
    s.totalCalories ≤ (s.update totalSteps hr p now).totalCalories
    ∧ (0 ≤ s.totalCalories → 0 ≤ (s.update totalSteps hr p now).totalCalories)
    ∧ 0 ≤ hrTerm s hr p now
    ∧ 0 ≤ stepTerm s totalSteps p
    ∧ st.stepCount ≤ (mpuRun st tr).stepCount := by
  have hhr : 0 ≤ hrTerm s hr p now := by
    unfold hrTerm
    split_ifs
    · exact estimateHRCalories_nonneg _ _ _ _ _
    · exact le_refl 0
    · exact le_refl 0
  have hstep : 0 ≤ stepTerm s totalSteps p := by
    unfold stepTerm
    split_ifs
    · unfold estimateStepCalories
      exact mul_nonneg (Nat.cast_nonneg _)
        (mul_nonneg (by norm_num) (div_nonneg hw (by norm_num)))
    · exact le_refl 0
  have hcount : ∀ (l : List MpuTick) (m : MpuState), m.stepCount ≤ (mpuRun m l).stepCount := by
    intro l
    induction l with
    | nil => intro m; exact le_refl _
    | cons t l ih =>
      intro m
      have hstep1 : m.stepCount ≤ (mpuStep m t.mag t.now).stepCount := by
        rcases mpuStep_count m t.mag t.now with ⟨hc, _⟩ | ⟨hc, _, _⟩ <;> omega
      exact le_trans hstep1 (ih _)
  obtain ⟨h1, _, _⟩ := update_decomposed s totalSteps hr p now
  refine ⟨by rw [h1]; linarith, fun h0 => by rw [h1]; linarith, hhr, hstep, hcount tr st⟩

/-- Witness for C6 at a concrete state, profile, and trace. -/
theorem claim_C6_monotone_witness :
    (⟨1000, 2, 0⟩ : CalState).totalCalories
        ≤ (CalState.update ⟨1000, 2, 0⟩ 1100 80 wProfile 5000).totalCalories
    ∧ (0 ≤ ((⟨1000, 2, 0⟩ : CalState)).totalCalories →
        0 ≤ (CalState.update ⟨1000, 2, 0⟩ 1100 80 wProfile 5000).totalCalories)
    ∧ 0 ≤ hrTerm ⟨1000, 2, 0⟩ 80 wProfile 5000
    ∧ 0 ≤ stepTerm ⟨1000, 2, 0⟩ 1100 wProfile
    ∧ mpuInit.stepCount ≤ (mpuRun mpuInit c7Trace).stepCount :=
  claim_C6_monotone ⟨1000, 2, 0⟩ 1100 80 wProfile 5000 (by norm_num [wProfile])
    mpuInit c7Trace

/-!
## BLE notification layer (`src/ble_service_manager.cpp`)
-/

/-- A value written to the health-data characteristic: the JSON built by
`buildHealthDataJSON(hr, spo2, steps, alert)` (alert −1 when absent) or a
raw batch payload. -/
inductive BlePayload
  | json (hr spo2 : ℚ) (steps : ℕ) (alert : ℚ)
  | batch (data : List ℕ)
deriving DecidableEq

/-- The BLE-manager state touched by the notify paths. -/
structure BleState where
  clientConnected : Bool
  healthChar : Option BlePayload
  notifyCount : ℕ
  lastActivityMs : ℕ
deriving DecidableEq

/-- `BLEServiceManager::notifyHealthDataBatch`: returns false untouched
when no client is connected; otherwise writes the payload, notifies and
stamps `lastActivityMs_`. -/
def notifyHealthDataBatch (st : BleState) (data : List ℕ) (now : ℕ) : Bool × BleState :=
  if !st.clientConnected then (false, st)
  else (true, { st with
                healthChar := some (BlePayload.batch data)
                notifyCount := st.notifyCount + 1
                lastActivityMs := now })

/-- `BLEServiceManager::notifyHealthData`: silently returns when no
client is connected; otherwise writes the JSON (alert −1) and notifies. -/
def notifyHealthData (st : BleState) (hr spo2 : ℚ) (steps : ℕ) : BleState :=
  if !st.clientConnected then st
  else { st with
         healthChar := some (BlePayload.json hr spo2 steps (-1))
         notifyCount := st.notifyCount + 1 }

/-- `BLEServiceManager::notifyHealthDataWithAlert`. -/
def notifyHealthDataWithAlert (st : BleState) (hr spo2 : ℚ) (steps : ℕ)
    (alertScore : ℚ) : BleState :=
  if !st.clientConnected then st
  else { st with
         healthChar := some (BlePayload.json hr spo2 steps alertScore)
         notifyCount := st.notifyCount + 1 }

/-- C9: with no receiver connected every send is a no-op that raises no
error — `notifyHealthDataBatch` returns false with the state (hence the
characteristic and notification count) untouched, and `notifyHealthData`
/ `notifyHealthDataWithAlert` return with the state untouched; with a
client connected, `notifyHealthDataBatch` updates the characteristic,
notifies, and returns true. -/
theorem claim_C9_no_receiver (st : BleState) (data : List ℕ) (now : ℕ)
    (hr spo2 : ℚ) (steps : ℕ) (alert : ℚ) :
    (st.clientConnected = false →
      notifyHealthDataBatch st data now = (false, st)
      ∧ notifyHealthData st hr spo2 steps = st
      ∧ notifyHealthDataWithAlert st hr spo2 steps alert = st)
    ∧ (st.clientConnected = true →
      (notifyHealthDataBatch st data now).1 = true
      ∧ (notifyHealthDataBatch st data now).2.healthChar = some (BlePayload.batch data)
      ∧ (notifyHealthDataBatch st data now).2.notifyCount = st.notifyCount + 1) := by
  constructor
  · intro h
    refine ⟨?_, ?_, ?_⟩ <;>
      simp [notifyHealthDataBatch, notifyHealthData, notifyHealthDataWithAlert, h]
  · intro h
    refine ⟨?_, ?_, ?_⟩ <;>
      simp [notifyHealthDataBatch, h]

/-- Witness for C9 at concrete disconnected and connected states. -/
theorem claim_C9_no_receiver_witness :
    (notifyHealthDataBatch ⟨false, none, 0, 0⟩ [1, 2] 99 = (false, ⟨false, none, 0, 0⟩)
      ∧ notifyHealthData ⟨false, none, 0, 0⟩ 75 98 10 = ⟨false, none, 0, 0⟩
      ∧ notifyHealthDataWithAlert ⟨false, none, 0, 0⟩ 75 98 10 0.5 = ⟨false, none, 0, 0⟩)
    ∧ ((notifyHealthDataBatch ⟨true, none, 0, 0⟩ [1, 2] 99).1 = true
      ∧ (notifyHealthDataBatch ⟨true, none, 0, 0⟩ [1, 2] 99).2.healthChar
          = some (BlePayload.batch [1, 2])
      ∧ (notifyHealthDataBatch ⟨true, none, 0, 0⟩ [1, 2] 99).2.notifyCount
          = (⟨true, none, 0, 0⟩ : BleState).notifyCount + 1) :=
  ⟨(claim_C9_no_receiver ⟨false, none, 0, 0⟩ [1, 2] 99 75 98 10 0.5).1 rfl,
   (claim_C9_no_receiver ⟨true, none, 0, 0⟩ [1, 2] 99 75 98 10 0.5).2 rfl⟩
